import Mathlib

/-!
Verification development for the release-bot orchestrator
(`release_bot/releasebot.py`).

The Python module drives a polling loop that detects release intent in
issue titles, finds merged release pull requests, and publishes releases
to GitHub, PyPI and (optionally) Fedora.  This file gives a shallow
embedding of that module: the semantic-version policy (the
`semantic_version` library functions `Version`, `validate`, `next_major`,
`next_minor`, `next_patch` and comparison that the module calls), the
title matcher, the issue/PR discovery scans, the per-phase publication
steps, and the cycle driver `run`.  External collaborators (the GitHub,
PyPI, Fedora and git clients) are modelled as a `World` record of their
observable answers, and every externally visible mutation performed by a
cycle is recorded in an `Effect` trace.
-/

/-! ## Semantic versions (the `semantic_version` library surface used by the bot) -/

/-- A prerelease identifier: numeric identifiers compare as naturals and
precede alphanumeric identifiers, which compare lexicographically. -/
inductive PreId where
  | num (n : Nat)
  | alnum (s : String)
deriving DecidableEq, Repr

/-- A parsed semantic version `major.minor.patch[-pre][+build]`. -/
structure SemVer where
  major : Nat
  minor : Nat
  patch : Nat
  pre : List PreId
  build : List String
deriving DecidableEq, Repr

def isDigitCh (c : Char) : Bool := '0' ≤ c && c ≤ '9'

def isIdentCh (c : Char) : Bool :=
  isDigitCh c || ('a' ≤ c && c ≤ 'z') || ('A' ≤ c && c ≤ 'Z') || c == '-'

def digitsToNat (cs : List Char) : Nat :=
  cs.foldl (fun n c => n * 10 + (c.toNat - 48)) 0

/-- A numeric component: nonempty, all digits, no leading zero. -/
def parseNumPart (cs : List Char) : Option Nat :=
  if cs ≠ [] && cs.all isDigitCh && (cs.length ≤ 1 || cs.head? ≠ some '0')
  then some (digitsToNat cs) else none

/-- Split a character list on every occurrence of `sep`. -/
def splitOnCh (sep : Char) : List Char → List (List Char)
  | [] => [[]]
  | x :: xs =>
    match splitOnCh sep xs with
    | [] => if x == sep then [[], []] else [[x]]
    | h :: t => if x == sep then [] :: h :: t else (x :: h) :: t

/-- Split at the first occurrence of `sep`, if any. -/
def breakOnCh (sep : Char) : List Char → List Char × Option (List Char)
  | [] => ([], none)
  | x :: xs =>
    if x == sep then ([], some xs)
    else
      let r := breakOnCh sep xs
      (x :: r.1, r.2)

/-- One prerelease identifier: nonempty ident chars; numeric ones reject
leading zeros. -/
def parsePreId (cs : List Char) : Option PreId :=
  if cs ≠ [] && cs.all isIdentCh then
    if cs.all isDigitCh then
      if cs.length ≤ 1 || cs.head? ≠ some '0' then some (PreId.num (digitsToNat cs)) else none
    else some (PreId.alnum (String.mk cs))
  else none

def parsePreIds (cs : List Char) : Option (List PreId) :=
  (splitOnCh '.' cs).mapM parsePreId

/-- One build identifier: nonempty ident chars (leading zeros allowed). -/
def parseBuildId (cs : List Char) : Option String :=
  if cs ≠ [] && cs.all isIdentCh then some (String.mk cs) else none

def parseBuildIds (cs : List Char) : Option (List String) :=
  (splitOnCh '.' cs).mapM parseBuildId

/-- `semantic_version.Version(s)` / the SemVer 2.0.0 grammar: full
`major.minor.patch` with optional `-prerelease` and `+build`. -/
def parseV (s : String) : Option SemVer :=
  let cs := s.toList
  let core := breakOnCh '+' cs
  let mnp := breakOnCh '-' core.1
  match splitOnCh '.' mnp.1 with
  | [a, b, c] => do
    let mj ← parseNumPart a
    let mi ← parseNumPart b
    let pa ← parseNumPart c
    let pre ← match mnp.2 with
      | none => some []
      | some p => parsePreIds p
    let bld ← match core.2 with
      | none => some []
      | some p => parseBuildIds p
    some ⟨mj, mi, pa, pre, bld⟩
  | _ => none

/-- `semantic_version.validate(s)`. -/
def validate (s : String) : Bool := (parseV s).isSome

def cmpNat (a b : Nat) : Ordering :=
  if a < b then .lt else if b < a then .gt else .eq

def cmpPreId : PreId → PreId → Ordering
  | .num a, .num b => cmpNat a b
  | .num _, .alnum _ => .lt
  | .alnum _, .num _ => .gt
  | .alnum a, .alnum b => if a < b then .lt else if b < a then .gt else .eq

def cmpPreList : List PreId → List PreId → Ordering
  | [], [] => .eq
  | [], _ :: _ => .lt
  | _ :: _, [] => .gt
  | a :: as, b :: bs =>
    match cmpPreId a b with
    | .eq => cmpPreList as bs
    | o => o

/-- Prerelease precedence: a version with no prerelease is greater than
one with a prerelease at the same numeric triple. -/
def cmpPre (a b : List PreId) : Ordering :=
  match a, b with
  | [], [] => .eq
  | [], _ :: _ => .gt
  | _ :: _, [] => .lt
  | x :: xs, y :: ys => cmpPreList (x :: xs) (y :: ys)

/-- Semver precedence (build metadata ignored), as the `semantic_version`
library's comparison operators implement it. -/
def vcompare (a b : SemVer) : Ordering :=
  match cmpNat a.major b.major with
  | .eq =>
    match cmpNat a.minor b.minor with
    | .eq =>
      match cmpNat a.patch b.patch with
      | .eq => cmpPre a.pre b.pre
      | o => o
    | o => o
  | o => o

/-- `a >= b` on versions: "already released" is `compare(a, b) != less`. -/
def verGe (a b : SemVer) : Bool := !(vcompare a b == Ordering.lt)

/-- `Version.next_major`: with a prerelease on `X.0.0` this strips the
prerelease, otherwise it bumps the major component. -/
def nextMajor (v : SemVer) : SemVer :=
  if !v.pre.isEmpty && v.minor == 0 && v.patch == 0 then ⟨v.major, 0, 0, [], []⟩
  else ⟨v.major + 1, 0, 0, [], []⟩

/-- `Version.next_minor`. -/
def nextMinor (v : SemVer) : SemVer :=
  if !v.pre.isEmpty && v.patch == 0 then ⟨v.major, v.minor, 0, [], []⟩
  else ⟨v.major, v.minor + 1, 0, [], []⟩

/-- `Version.next_patch`. -/
def nextPatch (v : SemVer) : SemVer :=
  if !v.pre.isEmpty then ⟨v.major, v.minor, v.patch, [], []⟩
  else ⟨v.major, v.minor, v.patch + 1, [], []⟩

def preIdStr : PreId → String
  | .num n => toString n
  | .alnum s => s

def joinDot : List String → String
  | [] => ""
  | h :: t => t.foldl (fun a s => a ++ "." ++ s) h

/-- `str(Version(...))`. -/
def verToString (v : SemVer) : String :=
  toString v.major ++ "." ++ toString v.minor ++ "." ++ toString v.patch
    ++ (if v.pre.isEmpty then "" else "-" ++ joinDot (v.pre.map preIdStr))
    ++ (if v.build.isEmpty then "" else "+" ++ joinDot v.build)

/-- `Version.coerce` restricted to the canonical semver strings that reach
the bot's comparisons (every stored version string has passed `validate`,
and release/index tags are canonical versions). -/
def coerceS (s : String) : SemVer := (parseV s).getD ⟨0, 0, 0, [], []⟩

/-! ## Python string helpers used by the matcher -/

/-- Python `str.strip` whitespace set. -/
def pyWhitespace (c : Char) : Bool :=
  c == ' ' || c == '\t' || c == '\n' || c == '\r' || c == '\x0b' || c == '\x0c'

def pstripList (cs : List Char) : List Char :=
  ((cs.dropWhile pyWhitespace).reverse.dropWhile pyWhitespace).reverse

/-- Python `str.strip()`. -/
def pstrip (s : String) : String := String.mk (pstripList s.toList)

def lowerCh (c : Char) : Char :=
  if 'A' ≤ c && c ≤ 'Z' then Char.ofNat (c.toNat + 32) else c

/-- Python `str.lower()` (titles are modelled as ASCII text). -/
def pyLower (s : String) : String := String.mk (s.toList.map lowerCh)

/-! ## The title regex `re.match(r'(.+) release', title.lower())`

`re.match` anchors at the start only; `.` matches any character except a
newline; `.+` is greedy, so the group is the text before the *last*
occurrence of `" release"` reachable without crossing a newline.  The
trailing part of the title after the matched `" release"` is unconstrained.
-/

def spaceRelease : List Char := [' ', 'r', 'e', 'l', 'e', 'a', 's', 'e']

/-- Splitting at index `i` is a way the regex can match: a nonempty,
newline-free group followed by the literal `" release"`. -/
def feasibleSplit (cs : List Char) (i : Nat) : Bool :=
  1 ≤ i && !((cs.take i).contains '\n') && spaceRelease.isPrefixOf (cs.drop i)

def feasIdxs (cs : List Char) : List Nat :=
  (List.range (cs.length + 1)).filter (fun i => feasibleSplit cs i)

/-- The regex group `re_match[1]` (greedy: the largest feasible split). -/
def regexReleaseGroup (cs : List Char) : Option (List Char) :=
  (feasIdxs cs).getLast?.map (fun i => cs.take i)

/-- Lines 85-99 of `find_open_release_issues` / 142-157 of
`find_newest_release_pull_request`: the regex branch computes
`(match, re_match[1].strip())` on the lowercased title, then the exact
keyword titles override the version with the bumped latest release. -/
def titleIntent (title : String) (last : SemVer) : Bool × String :=
  let low := pyLower title
  let r0 :=
    match regexReleaseGroup low.toList with
    | some g => (true, pstrip (String.mk g))
    | none => (false, "")
  let t := pstrip low
  if t == "new major release" then (true, verToString (nextMajor last))
  else if t == "new minor release" then (true, verToString (nextMinor last))
  else if t == "new patch release" then (true, verToString (nextPatch last))
  else r0

/-- Lines 101-102 / 159: a title yields a version only when it matched and
the version string passes `validate` (otherwise it is discarded with a
warning and no version is produced). -/
def acceptVersion (title : String) (last : SemVer) : Option String :=
  let r := titleIntent title last
  if r.1 && validate r.2 then some r.2 else none

/-! ## Data model: collaborator records, bot state, effects

Pagination in both walks (`walk_through_open_issues`,
`walk_through_prs`) is flattened: the scans below consume the sequence of
edges the `while True` / `for edge in reversed(edges)` loops visit, in
visiting order; an empty page terminates the walk, which in the flat model
is the end of the list.  The GitHub, PyPI, Fedora and git clients live
outside this module; the `World` record carries their observable answers
for one cycle (they are stateless proxies per the module's design), and
each externally visible mutation the orchestrator asks of them is recorded
as an `Effect`.
-/

/-- One edge of the open-issue walk: `{id, number, title, authorAssociation}`. -/
structure IssueEdge where
  id : String
  number : Nat
  title : String
  authorAssociation : String
deriving DecidableEq, Repr

/-- `mergeCommit {oid, author {name, email}}` of a closed pull request. -/
structure MergeCommit where
  oid : String
  authorName : String
  authorEmail : String
deriving DecidableEq, Repr

/-- One edge of the closed-PR walk.  GitHub's `mergeCommit` field is null
for a pull request that was closed without being merged, hence `Option`. -/
structure PREdge where
  id : String
  title : String
  mergeCommit : Option MergeCommit
deriving DecidableEq, Repr

/-- The keys of `release-conf.yaml` that `run` consults after
`load_release_conf` merges them into `new_release`. -/
structure ReleaseConf where
  labels : Option (List String)
  trigger_on_issue : Bool
  fedora : Bool
deriving DecidableEq, Repr

/-- The `self.new_release` dict: absent keys are `none` / `false`. -/
structure NewRelease where
  version : Option String := none
  commitish : Option String := none
  pr_id : Option String := none
  author_name : Option String := none
  author_email : Option String := none
  labels : Option (List String) := none
  trigger_on_issue : Bool := false
  fedora : Bool := false
  tempdir : Bool := false
  commit_name : Option String := none
  commit_email : Option String := none
deriving DecidableEq, Repr

/-- The `self.new_pr` dict once populated by `find_open_release_issues`. -/
structure PendingPR where
  version : String
  issue_id : String
  issue_number : Nat
  labels : Option (List String)
  previous_version : Option String := none
  pr_url : Option String := none
  repo : Bool := false
deriving DecidableEq, Repr

/-- The mutable bot state: `new_release`, `new_pr` (`none` is the empty
dict), the Notifier log `github.comment`, and `fedora.progress_log`. -/
structure BotSt where
  new_release : NewRelease
  new_pr : Option PendingPR
  comment : List String
  fedoraProgress : List String
deriving DecidableEq, Repr

def initialBotSt : BotSt := ⟨{}, none, [], []⟩

/-- Python exceptions reaching the cycle driver: the typed
`ReleaseException`, or an untyped error (`TypeError`/`KeyError`). -/
inductive PyErr where
  | release (msg : String)
  | typeErr (msg : String)
deriving DecidableEq, Repr

/-- Externally visible mutations requested from the collaborators. -/
inductive Effect where
  | gitPull
  | gitFetchTags
  | gitCheckout (ref : String)
  | gitCleanup
  | tempdirCleanup
  | githubNewRelease (v : String)
  | updateChangelog (v : String)
  | pypiRelease
  | fedoraRelease
  | makeReleasePr (v : String)
  | addComment (target : Option String) (msgs : List String)
  | closeIssue (n : Nat)
  | putLabels (n : Nat) (ls : List String)
deriving DecidableEq, Repr

/-- Collaborator answers for one cycle.  `latestGh` is
`Version(github.latest_release())`, `latestPypi` is
`Version(pypi.latest_version())`; the error flags say whether the
corresponding call raises `ReleaseException`. -/
structure World where
  latestGh : SemVer
  latestPypi : SemVer
  issueEdges : List IssueEdge
  prEdges : List PREdge
  conf : ReleaseConf
  pullErr : Bool
  confErr : Bool
  ghRelease : Except Unit Bool
  pypiOk : Bool
  fedoraResult : Except Unit Bool
  makePr : Except Unit String
  userName : String
  userEmail : String
  fedoraBuilds : List String

/-! ## Issue discovery (`find_open_release_issues`, lines 69-125) -/

/-- The privileged author associations of line 103. -/
def privilegedAssoc (a : String) : Bool :=
  decide (a ∈ ["MEMBER", "OWNER", "COLLABORATOR"])

/-- Lines 85-110 for one edge: the version accepted into
`release_issues`, or `none` when the title does not match, the version
fails validation, or the author association is not privileged (the last
two are logged as warnings and skipped). -/
def perEdgeAccept (e : IssueEdge) (last : SemVer) : Option String :=
  match acceptVersion e.title last with
  | some v => if privilegedAssoc e.authorAssociation then some v else none
  | none => none

/-- Python dict insertion `d[k] = v`: replace in place if the key exists,
else append. -/
def dictInsert : List (String × IssueEdge) → String → IssueEdge → List (String × IssueEdge)
  | [], k, v => [(k, v)]
  | (k', v') :: rest, k, v =>
    if k' = k then (k', v) :: rest else (k', v') :: dictInsert rest k v

/-- The `release_issues` dict accumulated over the walk. -/
def collectIssues (last : SemVer) : List IssueEdge → List (String × IssueEdge) → List (String × IssueEdge)
  | [], acc => acc
  | e :: rest, acc =>
    match perEdgeAccept e last with
    | some v => collectIssues last rest (dictInsert acc v e)
    | none => collectIssues last rest acc

/-- `find_open_release_issues`: more than one distinct version is an
error (returns `False`, no `PendingPR`); exactly one yields `True` and the
`new_pr` dict with the configured labels; zero yields `False`. -/
def findOpenReleaseIssues (edges : List IssueEdge) (last : SemVer)
    (labels : Option (List String)) : Bool × Option PendingPR :=
  if 1 < (collectIssues last edges []).length then (false, none)
  else
    match collectIssues last edges [] with
    | (v, node) :: _ =>
      (true, some { version := v, issue_id := node.id, issue_number := node.number,
                    labels := labels })
    | [] => (false, none)

/-! ## Pull-request discovery (`find_newest_release_pull_request`, lines 127-169) -/

/-- The fields merged into `new_release` on a PR match. -/
structure NewRelInfo where
  version : String
  commitish : String
  pr_id : String
  author_name : String
  author_email : String
deriving DecidableEq, Repr

/-- The closed-PR scan: the first edge (in walk order) whose title
matches and validates wins.  The matching logic never consults
`mergeCommit`; on a match the code immediately reads
`merge_commit['oid']`, which for a null `mergeCommit` raises an untyped
`TypeError` (`'NoneType' object is not subscriptable`). -/
def scanPRs (last : SemVer) : List PREdge → Except PyErr (Option NewRelInfo)
  | [] => .ok none
  | e :: rest =>
    match acceptVersion e.title last with
    | some v =>
      match e.mergeCommit with
      | some mc =>
        .ok (some ⟨v, mc.oid, e.id, mc.authorName, mc.authorEmail⟩)
      | none => .error (.typeErr "NoneType object is not subscriptable")
    | none => scanPRs last rest

/-- `self.new_release.update(new_release)` on a found PR. -/
def applyNewRel (r : NewRelease) (nr : NewRelInfo) : NewRelease :=
  { r with version := some nr.version, commitish := some nr.commitish,
           pr_id := some nr.pr_id, author_name := some nr.author_name,
           author_email := some nr.author_email }

def findNewestReleasePR (w : World) (st : BotSt) : Except PyErr (Bool × BotSt) :=
  match scanPRs w.latestGh w.prEdges with
  | .error e => .error e
  | .ok none => .ok (false, st)
  | .ok (some nr) => .ok (true, { st with new_release := applyNewRel st.new_release nr })

/-! ## Configuration load (`load_release_conf`, lines 59-67)

Modelled from the spec: `github.get_configuration` and
`configuration.load_release_conf` (outside this module) fetch
`release-conf.yaml` from the repository and produce the release policy
(trigger mode, labels, downstream flag), raising the typed error when the
configuration is missing or invalid; the result is merged into
`new_release`. -/
def loadReleaseConf (w : World) (st : BotSt) : Except PyErr BotSt :=
  if w.confErr then .error (.release "Failed to load release configuration")
  else
    .ok { st with new_release :=
      { st.new_release with labels := w.conf.labels,
                            trigger_on_issue := w.conf.trigger_on_issue,
                            fedora := w.conf.fedora } }

/-! ## Publication steps and PR creation -/

def pushComment (st : BotSt) (m : String) : BotSt :=
  { st with comment := st.comment ++ [m] }

def ghReleaseMsg (ok : Bool) (v : String) : String :=
  "I just " ++ (if ok then "released" else "failed to release")
    ++ " version " ++ v ++ " on Github"

def pypiReleaseMsg (ok : Bool) (v : String) : String :=
  "I just " ++ (if ok then "released" else "failed to release")
    ++ " version " ++ v ++ " on PyPI"

def joinComma : List String → String
  | [] => ""
  | h :: t => t.foldl (fun a s => a ++ ", " ++ s) h

def fedoraReleaseMsg (ok : Bool) (builds : List String) : String :=
  "I just " ++ (if ok then "released" else "failed to release") ++ " on Fedora"
    ++ (if joinComma builds == "" then ""
        else ", successfully built for branches: " ++ joinComma builds
          ++ ". Follow this link to create bodhi update(s): https://bodhi.fedoraproject.org/updates/new")

def prRequestMsg (ok : Bool) (v : String) (url : Option String) : String :=
  "I just " ++ (if ok then "made" else "failed to make")
    ++ " a PR request for a release version " ++ v
    ++ (match url with
        | some u => "\n Here's a [link to the PR](" ++ u ++ ")"
        | none => "")

/-- `make_new_github_release` (lines 218-243): skip creation when the
latest hosted release is already >= the requested version, else attempt
it (appending the outcome to the notification log, re-raising on
failure); in every non-raising path `update_changelog` is then invoked
unconditionally. -/
def makeNewGithubRelease (w : World) (st : BotSt) : Except PyErr Unit × BotSt × List Effect :=
  match st.new_release.version with
  | none => (.error (.typeErr "KeyError: version"), st, [])
  | some v =>
    if verGe w.latestGh (coerceS v) then
      (.ok (), st, [Effect.updateChangelog v])
    else
      match w.ghRelease with
      | .error _ =>
        (.error (.release "github release failed"),
         pushComment st (ghReleaseMsg false v), [Effect.githubNewRelease v])
      | .ok released =>
        let st1 := { st with new_release := { st.new_release with tempdir := true } }
        let st2 := if released then pushComment st1 (ghReleaseMsg true v) else st1
        (.ok (), st2, [Effect.githubNewRelease v, Effect.updateChangelog v])

/-- `make_new_pypi_release` (lines 245-266): returns `False` when the
index already has >= the requested version; else fetches tags, checks out
the tag and publishes, returning `True` on success and re-raising on
failure. -/
def makeNewPypiRelease (w : World) (st : BotSt) : Except PyErr Bool × BotSt × List Effect :=
  match st.new_release.version with
  | none => (.error (.typeErr "KeyError: version"), st, [])
  | some v =>
    if verGe w.latestPypi (coerceS v) then (.ok false, st, [])
    else
      let es := [Effect.gitFetchTags, Effect.gitCheckout v, Effect.pypiRelease]
      if w.pypiOk then (.ok true, pushComment st (pypiReleaseMsg true v), es)
      else (.error (.release "pypi release failed"),
            pushComment st (pypiReleaseMsg false v), es)

/-- `make_new_fedora_release` (lines 268-295): skipped unless the config
enabled Fedora; records the user contact into `new_release`, triggers the
Fedora release and appends the outcome, re-raising on a typed failure. -/
def makeNewFedoraRelease (w : World) (st : BotSt) : Except PyErr Unit × BotSt × List Effect :=
  if st.new_release.fedora then
    let st1 := { st with new_release :=
      { st.new_release with commit_name := some w.userName,
                            commit_email := some w.userEmail } }
    match w.fedoraResult with
    | .ok ok =>
      (.ok (), pushComment st1 (fedoraReleaseMsg ok w.fedoraBuilds), [Effect.fedoraRelease])
    | .error _ =>
      (.error (.release "fedora release failed"),
       pushComment st1 (fedoraReleaseMsg false w.fedoraBuilds), [Effect.fedoraRelease])
  else (.ok (), st, [])

/-- `make_release_pull_request` (lines 171-216): records the previous
version, aborts with `False` (a warning only, no external action) when
the latest release is already >= the requested version; otherwise opens
the PR.  `pr_handler` posts one single-message comment to the source
issue (saving and restoring `github.comment` around the post) and on
success also closes the issue; a typed failure is re-raised after the
failure comment.  (The `if not self.new_pr['repo']` guard of line 207 can
never fire: `self.git` is always truthy.) -/
def makeReleasePullRequest (w : World) (st : BotSt) : Except PyErr Bool × BotSt × List Effect :=
  match st.new_pr with
  | none => (.error (.typeErr "KeyError: pending PR"), st, [])
  | some pr0 =>
    let pr1 := { pr0 with previous_version := some (verToString w.latestGh) }
    let st1 := { st with new_pr := some pr1 }
    if verGe w.latestGh (coerceS pr1.version) then (.ok false, st1, [])
    else
      let pr2 := { pr1 with repo := true }
      let st2 := { st1 with new_pr := some pr2 }
      match w.makePr with
      | .ok url =>
        let pr3 := { pr2 with pr_url := some url }
        let st3 := { st2 with new_pr := some pr3 }
        (.ok true, st3,
         [Effect.makeReleasePr pr3.version,
          Effect.addComment (some pr3.issue_id) [prRequestMsg true pr3.version (some url)],
          Effect.closeIssue pr3.issue_number])
      | .error _ =>
        (.error (.release "failed to make release PR"), st2,
         [Effect.makeReleasePr pr2.version,
          Effect.addComment (some pr2.issue_id) [prRequestMsg false pr2.version none]])

/-! ## The cycle driver (`run`, lines 297-325) -/

/-- Steps 305-312: github release, then PyPI regardless of whether the
github release was fresh, then Fedora only when PyPI reported a fresh
success. -/
def publishSeq (w : World) (st : BotSt) : Except PyErr Unit × BotSt × List Effect :=
  match makeNewGithubRelease w st with
  | (.error e, st1, es1) => (.error e, st1, es1)
  | (.ok _, st1, es1) =>
    match makeNewPypiRelease w st1 with
    | (.error e, st2, es2) => (.error e, st2, es1 ++ es2)
    | (.ok true, st2, es2) =>
      ((makeNewFedoraRelease w st2).1, (makeNewFedoraRelease w st2).2.1,
       es1 ++ es2 ++ (makeNewFedoraRelease w st2).2.2)
    | (.ok false, st2, es2) => (.ok (), st2, es1 ++ es2)

/-- Lines 313-317: if the loaded configuration enables issue-triggered
releases and an open release issue is found, optionally apply the
configured labels, then make the release pull request. -/
def requestPath (w : World) (st : BotSt) : Except PyErr Unit × BotSt × List Effect :=
  if st.new_release.trigger_on_issue then
    match findOpenReleaseIssues w.issueEdges w.latestGh st.new_release.labels with
    | (true, some pr) =>
      ((makeReleasePullRequest w { st with new_pr := some pr }).1.map (fun _ => ()),
       (makeReleasePullRequest w { st with new_pr := some pr }).2.1,
       (match st.new_release.labels with
        | some ls => [Effect.putLabels pr.issue_number ls]
        | none => []) ++ (makeReleasePullRequest w { st with new_pr := some pr }).2.2)
    | (_, _) => (.ok (), st, [])
  else (.ok (), st, [])

/-- The body of the `try` block of `run` (lines 302-317). -/
def cycleBody (w : World) (st : BotSt) : Except PyErr Unit × BotSt × List Effect :=
  match loadReleaseConf w st with
  | .error e => (.error e, st, [])
  | .ok st1 =>
    match findNewestReleasePR w st1 with
    | .error e => (.error e, st1, [])
    | .ok (found, st2) =>
      match (if found then publishSeq w st2 else (.ok (), st2, [])) with
      | (.error e, st3, es1) => (.error e, st3, es1)
      | (.ok _, st3, es1) =>
        ((requestPath w st3).1, (requestPath w st3).2.1, es1 ++ (requestPath w st3).2.2)

/-- Modelled from the spec: `github.add_comment` (outside this module)
posts the accumulated notification log as one batched comment to the
given target when a target audience exists and the log is nonempty, then
clears the log. -/
def flushComments (st : BotSt) : List Effect × BotSt :=
  match st.new_release.pr_id, st.comment with
  | some t, m :: ms => ([Effect.addComment (some t) (m :: ms)], { st with comment := [] })
  | _, _ => ([], st)

/-- One iteration of the `while True` loop of `run`: `git.pull()`
(outside the `try`, so its typed failure propagates and ends the loop),
then the `try` body with `except ReleaseException` logging and
swallowing the typed error, then the end-of-cycle notification flush and
sleep.  An untyped error from the body also propagates.  The returned
`Except` is `ok` when the loop proceeds to the next iteration. -/
def runCycle (w : World) (st : BotSt) : Except PyErr Unit × BotSt × List Effect :=
  if w.pullErr then (.error (.release "Failed to pull"), st, [Effect.gitPull])
  else
    match cycleBody w st with
    | (.error (.typeErr m), st1, es) => (.error (.typeErr m), st1, Effect.gitPull :: es)
    | (_, st1, es) =>
      (.ok (), (flushComments st1).2, Effect.gitPull :: es ++ (flushComments st1).1)

/-- `cleanup` (lines 50-57): dispose the temporary directory if one was
created, reset `new_release`, `new_pr`, the notification log and the
Fedora progress log, and clean the git working copy. -/
def cleanup (st : BotSt) : BotSt × List Effect :=
  (initialBotSt,
   (if st.new_release.tempdir then [Effect.tempdirCleanup] else []) ++ [Effect.gitCleanup])

/-- The process: iterate `runCycle` (fuel-bounded); when an exception
escapes a cycle the `finally` block runs `cleanup` and the process
terminates with that error.  A `none` error with remaining state means
the fuel ran out while the loop was still going. -/
def runProcess : Nat → World → BotSt → Option PyErr × BotSt × List Effect
  | 0, _, st => (none, st, [])
  | n + 1, w, st =>
    match runCycle w st with
    | (.error e, st1, es) =>
      (some e, (cleanup st1).1, es ++ (cleanup st1).2)
    | (.ok _, st1, es) =>
      ((runProcess n w st1).1, (runProcess n w st1).2.1, es ++ (runProcess n w st1).2.2)

/-! ## Auxiliary definitions used by the verification statements -/

/-- The three case-insensitive exact keyword titles (after `strip`). -/
def isKeywordTitle (t : String) : Bool :=
  pstrip (pyLower t) == "new major release" || pstrip (pyLower t) == "new minor release"
    || pstrip (pyLower t) == "new patch release"

/-- Reference definition following the spec's words (for comparison with
the code's matcher): a non-keyword title matches exactly when it has the
trailing-literal form `"<version-or-label> release"`, and the candidate is
the leading text before the trailing `" release"`, trimmed. -/
def specTrailingCandidate (t : String) : Option String :=
  let low := (pyLower t).toList
  if spaceRelease.isSuffixOf low && 8 < low.length then
    some (pstrip (String.mk (low.take (low.length - 8))))
  else none

/-- The candidate the code's regex branch produces for a non-keyword
title (before validation). -/
def codeCandidate (t : String) : Option String :=
  (regexReleaseGroup (pyLower t).toList).map (fun g => pstrip (String.mk g))

/-- The versions of the issues that qualify (title matches, version
validates, author privileged), in walk order. -/
def qualVersions (edges : List IssueEdge) (last : SemVer) : List String :=
  edges.filterMap (fun e => perEdgeAccept e last)

/-- Keep the first occurrence of every string (python-dict key order). -/
def insKey (ks : List String) (k : String) : List String :=
  if k ∈ ks then ks else ks ++ [k]

def keepFirst (l : List String) : List String := l.foldl insKey []

def isAddCommentE : Effect → Bool
  | .addComment _ _ => true
  | _ => false

/-- Effect shapes of the code-hosting release step. -/
def ghKind : Effect → Bool
  | .githubNewRelease _ => true
  | .updateChangelog _ => true
  | _ => false

/-- Effect shapes of the package-index release step. -/
def pypiKind : Effect → Bool
  | .gitFetchTags => true
  | .gitCheckout _ => true
  | .pypiRelease => true
  | _ => false

/-- The effect shapes the request path (labels + PR creation) can emit:
labelling, opening the PR, a single-message status comment, closing the
issue. -/
def reqPathKind : Effect → Bool
  | .putLabels _ _ => true
  | .makeReleasePr _ => true
  | .closeIssue _ => true
  | .addComment _ [_] => true
  | _ => false

/-- External mutations belonging to the publication steps of one cycle:
creating the code-hosting release, updating the changelog, publishing to
the package index, triggering the downstream packaging. -/
def isPublicationMutation : Effect → Bool
  | .githubNewRelease _ => true
  | .updateChangelog _ => true
  | .pypiRelease => true
  | .fedoraRelease => true
  | _ => false

/-! Concrete collaborator worlds used for counterexamples and witnesses. -/

def issueA : IssueEdge := ⟨"I1", 7, "3.0.0 release", "MEMBER"⟩

def prEdgeA : PREdge := ⟨"PR1", "2.0.0 release", some ⟨"abc123", "Ann", "ann@example.org"⟩⟩

/-- The release request the scan produces from `prEdgeA`. -/
def nrA : NewRelInfo := ⟨"2.0.0", "abc123", "PR1", "Ann", "ann@example.org"⟩

/-- A world with both a freshly publishable merged PR and an open release
issue under issue-triggered mode. -/
def worldRich : World :=
  { latestGh := ⟨1, 0, 0, [], []⟩, latestPypi := ⟨2, 0, 0, [], []⟩,
    issueEdges := [issueA], prEdges := [prEdgeA],
    conf := ⟨none, true, false⟩,
    pullErr := false, confErr := false,
    ghRelease := .ok true, pypiOk := true, fedoraResult := .ok true,
    makePr := .ok "https://example.org/pr/1",
    userName := "Ann", userEmail := "ann@example.org", fedoraBuilds := [] }

/-- `worldRich` with a failing `git.pull`. -/
def worldPull : World := { worldRich with pullErr := true }

def prEdgeB : PREdge := ⟨"PR1", "1.1.0 release", some ⟨"abc123", "Ann", "ann@example.org"⟩⟩

/-- A world just before publication of 1.1.0 (latest releases are 1.0.0),
with the Fedora target enabled. -/
def worldPre : World :=
  { latestGh := ⟨1, 0, 0, [], []⟩, latestPypi := ⟨1, 0, 0, [], []⟩,
    issueEdges := [], prEdges := [prEdgeB],
    conf := ⟨none, false, true⟩,
    pullErr := false, confErr := false,
    ghRelease := .ok true, pypiOk := true, fedoraResult := .ok true,
    makePr := .ok "https://example.org/pr/2",
    userName := "Ann", userEmail := "ann@example.org", fedoraBuilds := ["f39"] }

/-- `worldPre` after a successful full publication of 1.1.0: both the
code-hosting platform and the package index now report 1.1.0. -/
def worldPost : World :=
  { worldPre with latestGh := ⟨1, 1, 0, [], []⟩, latestPypi := ⟨1, 1, 0, [], []⟩ }

def nrB : NewRelInfo := ⟨"1.1.0", "abc123", "PR1", "Ann", "ann@example.org"⟩

def pendingLow : PendingPR :=
  { version := "0.9.0", issue_id := "I9", issue_number := 9, labels := none }

def stPending : BotSt := { initialBotSt with new_pr := some pendingLow }

def prEdgeUnmerged : PREdge := ⟨"PR9", "1.2.3 release", none⟩

def issueB1 : IssueEdge := ⟨"I1", 1, "1.0.1 release", "MEMBER"⟩

def issueB2 : IssueEdge := ⟨"I2", 2, "1.0.2 release", "OWNER"⟩

/-! ## Lemmas about the regex model -/

theorem feasibleSplit_le {cs : List Char} {i : Nat} (h : feasibleSplit cs i = true) :
    i ≤ cs.length := by
  unfold feasibleSplit at h
  simp only [Bool.and_eq_true] at h
  by_contra hlt
  have hnil : cs.drop i = [] := List.drop_eq_nil_of_le (by omega)
  rw [hnil] at h
  simp [spaceRelease, List.isPrefixOf] at h

theorem mem_feasIdxs {cs : List Char} {i : Nat} :
    i ∈ feasIdxs cs ↔ feasibleSplit cs i = true := by
  constructor
  · intro h
    exact (List.mem_filter.mp h).2
  · intro h
    exact List.mem_filter.mpr
      ⟨List.mem_range.mpr (Nat.lt_succ_of_le (feasibleSplit_le h)), h⟩

theorem feasIdxs_pairwise (cs : List Char) : (feasIdxs cs).Pairwise (· < ·) :=
  List.Pairwise.filter _ (List.pairwise_lt_range _)

theorem getLastQ_max {l : List Nat} :
    l.Pairwise (· < ·) → ∀ {m : Nat}, l.getLast? = some m → ∀ x ∈ l, x ≤ m := by
  induction l with
  | nil => intro _ m hm; simp at hm
  | cons a t ih =>
    intro hp m hm x hx
    cases t with
    | nil =>
      simp at hm hx
      omega
    | cons b t2 =>
      rw [List.getLast?_cons_cons] at hm
      rw [List.pairwise_cons] at hp
      rcases List.mem_cons.mp hx with rfl | hx2
      · have hb := hp.1 b (List.mem_cons_self _ _)
        have hbm := ih hp.2 hm b (List.mem_cons_self _ _)
        omega
      · exact ih hp.2 hm x hx2

/-- The regex group is a feasible split, and the greedy (largest) one. -/
theorem regexReleaseGroup_spec {cs : List Char} {g : List Char}
    (h : regexReleaseGroup cs = some g) :
    ∃ i, feasibleSplit cs i = true ∧ g = cs.take i ∧
      ∀ j, feasibleSplit cs j = true → j ≤ i := by
  unfold regexReleaseGroup at h
  cases hl : (feasIdxs cs).getLast? with
  | none => rw [hl] at h; simp at h
  | some i =>
    rw [hl] at h
    simp at h
    refine ⟨i, ?_, h.symm, ?_⟩
    · exact mem_feasIdxs.mp (List.mem_of_mem_getLast? hl)
    · intro j hj
      exact getLastQ_max (feasIdxs_pairwise cs) hl j (mem_feasIdxs.mpr hj)

theorem regexReleaseGroup_isSome {cs : List Char} :
    (regexReleaseGroup cs).isSome = true ↔ ∃ i, feasibleSplit cs i = true := by
  unfold regexReleaseGroup
  constructor
  · intro h
    cases hl : (feasIdxs cs).getLast? with
    | none => rw [hl] at h; simp at h
    | some i => exact ⟨i, mem_feasIdxs.mp (List.mem_of_mem_getLast? hl)⟩
  · intro ⟨i, hi⟩
    have hmem : i ∈ feasIdxs cs := mem_feasIdxs.mpr hi
    have hne : feasIdxs cs ≠ [] := by
      intro hnil; rw [hnil] at hmem; simp at hmem
    cases hl : (feasIdxs cs).getLast? with
    | none => exact absurd (List.getLast?_eq_none_iff.mp hl) hne
    | some j => simp [hl]

/-- C9 (counterexample): the claim says a non-keyword title produces a
candidate exactly when it has the trailing-literal form
`"<version-or-label> release"`.  The title `"1.2.3 release party"` is not
a keyword, does not end in `" release"` (the spec-side matcher rejects
it), yet the code's `re.match(r'(.+) release', ...)` is anchored at the
start only, so the matcher produces the (valid) candidate `"1.2.3"`. -/
theorem C9_counterexample :
    isKeywordTitle "1.2.3 release party" = false ∧
    titleIntent "1.2.3 release party" ⟨1, 0, 0, [], []⟩ = (true, "1.2.3") ∧
    validate "1.2.3" = true ∧
    specTrailingCandidate "1.2.3 release party" = none := by
  refine ⟨by decide, ?_, by decide, by decide⟩
  decide

/-- C9 (amended): for a non-keyword title the matcher produces a
candidate exactly when the *lowercased title matched at its start* has
the form "(.+) release" somewhere (the literal `" release"` need not be
trailing); the candidate is then the lowercased text before the *last*
reachable occurrence of `" release"`, trimmed (greedy group); and a
candidate that fails semantic-version validation is discarded, producing
no version. -/
theorem C9_title_matcher (title : String) (last : SemVer)
    (hk : isKeywordTitle title = false) :
    ((titleIntent title last).1 = true ↔
        ∃ i, feasibleSplit (pyLower title).toList i = true) ∧
    ((titleIntent title last).1 = true →
        ∃ i, feasibleSplit (pyLower title).toList i = true ∧
          (titleIntent title last).2 = pstrip (String.mk ((pyLower title).toList.take i)) ∧
          ∀ j, feasibleSplit (pyLower title).toList j = true → j ≤ i) ∧
    (validate (titleIntent title last).2 = false → acceptVersion title last = none) := by
  unfold isKeywordTitle at hk
  simp only [Bool.or_eq_false_iff] at hk
  obtain ⟨⟨h1, h2⟩, h3⟩ := hk
  have hti : titleIntent title last =
      match regexReleaseGroup (pyLower title).toList with
      | some g => (true, pstrip (String.mk g))
      | none => (false, "") := by
    unfold titleIntent
    simp [h1, h2, h3]
  refine ⟨?_, ?_, ?_⟩
  · rw [hti]
    cases hr : regexReleaseGroup (pyLower title).toList with
    | some g =>
      constructor
      · intro _
        obtain ⟨i, hi, _, _⟩ := regexReleaseGroup_spec hr
        exact ⟨i, hi⟩
      · intro _; rfl
    | none =>
      constructor
      · intro h; simp at h
      · intro ⟨i, hi⟩
        have : (regexReleaseGroup (pyLower title).toList).isSome = true :=
          regexReleaseGroup_isSome.mpr ⟨i, hi⟩
        rw [hr] at this
        simp at this
  · intro hm
    rw [hti] at hm ⊢
    cases hr : regexReleaseGroup (pyLower title).toList with
    | some g =>
      obtain ⟨i, hi, hg, hmax⟩ := regexReleaseGroup_spec hr
      exact ⟨i, hi, by simp [hg], hmax⟩
    | none => rw [hr] at hm; simp at hm
  · intro hv
    unfold acceptVersion
    simp [hv]

/-- C9 witness: the amended matcher characterisation applied to the title
`"2.0.0 release"`. -/
theorem C9_title_matcher_witness :
    ∃ i, feasibleSplit (pyLower "2.0.0 release").toList i = true :=
  ((C9_title_matcher "2.0.0 release" ⟨1, 0, 0, [], []⟩ (by decide)).1).mp (by decide)

/-- C5 (counterexample): the claim says a pull request without a merge
commit cannot match and never makes the phase fail other than with a
typed release error.  In the code the match is decided by the title
alone; on a matching closed-but-unmerged PR (null `mergeCommit`) the
scan then dereferences the null merge commit and fails with an untyped
`TypeError`. -/
theorem C5_counterexample :
    scanPRs ⟨1, 0, 0, [], []⟩ [prEdgeUnmerged]
      = .error (.typeErr "NoneType object is not subscriptable") := by
  rfl

/-- C5 (amended): a pull request without a merge commit never becomes the
authoritative release request (any returned request carries the merge
commit of some scanned edge), and a PR without a merge commit whose title
does not match is skipped; but when its title matches and validates the
phase fails with an *untyped* error (and every failure of the scan is of
that shape). -/
theorem C5_pr_scan (edges : List PREdge) (last : SemVer) :
    (∀ nr, scanPRs last edges = .ok (some nr) →
        ∃ e ∈ edges, ∃ mc, e.mergeCommit = some mc ∧
          nr.commitish = mc.oid ∧ nr.pr_id = e.id) ∧
    (∀ err, scanPRs last edges = .error err →
        ∃ m, err = .typeErr m ∧
          ∃ e ∈ edges, e.mergeCommit = none ∧ (acceptVersion e.title last).isSome = true) := by
  induction edges with
  | nil =>
    refine ⟨?_, ?_⟩ <;> intro x h <;> simp [scanPRs] at h
  | cons e rest ih =>
    refine ⟨?_, ?_⟩
    · intro nr h
      unfold scanPRs at h
      cases hacc : acceptVersion e.title last with
      | some v =>
        rw [hacc] at h
        cases hmc : e.mergeCommit with
        | some mc =>
          rw [hmc] at h
          simp at h
          exact ⟨e, List.mem_cons_self _ _, mc, hmc, by rw [← h], by rw [← h]⟩
        | none => rw [hmc] at h; simp at h
      | none =>
        rw [hacc] at h
        obtain ⟨e', he', mc, hmc, h1, h2⟩ := ih.1 nr h
        exact ⟨e', List.mem_cons_of_mem _ he', mc, hmc, h1, h2⟩
    · intro err h
      unfold scanPRs at h
      cases hacc : acceptVersion e.title last with
      | some v =>
        rw [hacc] at h
        cases hmc : e.mergeCommit with
        | some mc => rw [hmc] at h; simp at h
        | none =>
          rw [hmc] at h
          simp at h
          exact ⟨"NoneType object is not subscriptable", h.symm,
            e, List.mem_cons_self _ _, hmc, by simp [hacc]⟩
      | none =>
        rw [hacc] at h
        obtain ⟨m, hm, e', he', hmc, hsome⟩ := ih.2 err h
        exact ⟨m, hm, e', List.mem_cons_of_mem _ he', hmc, hsome⟩

/-- C5 witness: the amended scan property applied to a one-element walk
containing a merged release PR. -/
theorem C5_pr_scan_witness :
    ∃ e ∈ [prEdgeA], ∃ mc, e.mergeCommit = some mc ∧
      nrA.commitish = mc.oid ∧ nrA.pr_id = e.id :=
  (C5_pr_scan [prEdgeA] ⟨1, 0, 0, [], []⟩).1 nrA (by rfl)

/-- C7: whenever the pending request's version is not strictly greater
than the latest known release (the guard is literally
`compare(latest, candidate) != less`), `make_release_pull_request`
returns `False` with *no* external effect: no pull request is opened, no
comment is posted, no issue is closed. -/
theorem C7_already_released_guard (w : World) (st : BotSt) (pr : PendingPR)
    (hpr : st.new_pr = some pr)
    (hge : verGe w.latestGh (coerceS pr.version) = true) :
    (makeReleasePullRequest w st).1 = .ok false ∧
    (makeReleasePullRequest w st).2.2 = [] ∧
    verGe w.latestGh (coerceS pr.version)
      = !(vcompare w.latestGh (coerceS pr.version) == Ordering.lt) := by
  unfold makeReleasePullRequest
  rw [hpr]
  have hlt : (vcompare w.latestGh (coerceS pr.version) == Ordering.lt) = false := by
    unfold verGe at hge
    simpa using hge
  simp [hlt, verGe]

/-- C7 witness: the guard at latest release 1.0.0 and requested version
0.9.0. -/
theorem C7_witness :
    (makeReleasePullRequest worldRich stPending).1 = .ok false ∧
    (makeReleasePullRequest worldRich stPending).2.2 = [] ∧
    verGe worldRich.latestGh (coerceS pendingLow.version)
      = !(vcompare worldRich.latestGh (coerceS pendingLow.version) == Ordering.lt) :=
  C7_already_released_guard worldRich stPending pendingLow (by rfl) (by decide)

/-! ## Lemmas about the issue-discovery dict -/

theorem dictInsert_keys (acc : List (String × IssueEdge)) (k : String) (v : IssueEdge) :
    (dictInsert acc k v).map Prod.fst = insKey (acc.map Prod.fst) k := by
  induction acc with
  | nil => simp [dictInsert, insKey]
  | cons p rest ih =>
    obtain ⟨k', v'⟩ := p
    by_cases h : k' = k
    · subst h
      simp [dictInsert, insKey]
    · by_cases hm : k ∈ rest.map Prod.fst
      · simp [dictInsert, h, insKey, ih, hm, Ne.symm h]
      · simp [dictInsert, h, insKey, ih, hm, Ne.symm h]

theorem collect_keys (last : SemVer) (edges : List IssueEdge) (acc : List (String × IssueEdge)) :
    (collectIssues last edges acc).map Prod.fst
      = (qualVersions edges last).foldl insKey (acc.map Prod.fst) := by
  induction edges generalizing acc with
  | nil => simp [collectIssues, qualVersions]
  | cons e rest ih =>
    cases h : perEdgeAccept e last with
    | some v =>
      simp [collectIssues, qualVersions, h, List.filterMap_cons, ih, dictInsert_keys]
    | none =>
      simp [collectIssues, qualVersions, h, List.filterMap_cons, ih]

theorem mem_foldl_insKey {l : List String} :
    ∀ {init : List String} {x : String}, x ∈ l.foldl insKey init → x ∈ init ∨ x ∈ l := by
  induction l with
  | nil => intro init x h; exact Or.inl h
  | cons a t ih =>
    intro init x h
    rw [List.foldl_cons] at h
    rcases ih h with h1 | h2
    · unfold insKey at h1
      split at h1
      · exact Or.inl h1
      · rcases List.mem_append.mp h1 with h3 | h4
        · exact Or.inl h3
        · simp at h4
          subst h4
          exact Or.inr (List.mem_cons_self _ _)
    · exact Or.inr (List.mem_cons_of_mem _ h2)

theorem keepFirst_subset {l : List String} {x : String} (h : x ∈ keepFirst l) : x ∈ l := by
  rcases mem_foldl_insKey h with h1 | h2
  · simp at h1
  · exact h2

/-- C6: over any walk of open issues, if the qualifying issues carry more
than one distinct version the phase returns failure with no `PendingPR`;
if they carry exactly one distinct version it returns success with a
`PendingPR` carrying the configured labels and a qualifying version; if
there are none it returns failure. -/
theorem C6_issue_discovery (edges : List IssueEdge) (last : SemVer)
    (labels : Option (List String)) :
    (1 < (keepFirst (qualVersions edges last)).length →
        findOpenReleaseIssues edges last labels = (false, none)) ∧
    ((keepFirst (qualVersions edges last)).length = 1 →
        ∃ pr, findOpenReleaseIssues edges last labels = (true, some pr) ∧
          pr.labels = labels ∧ pr.version ∈ qualVersions edges last) ∧
    (qualVersions edges last = [] →
        findOpenReleaseIssues edges last labels = (false, none)) := by
  have hkeys : (collectIssues last edges []).map Prod.fst = keepFirst (qualVersions edges last) := by
    have := collect_keys last edges []
    simpa [keepFirst] using this
  have hlen : (collectIssues last edges []).length = (keepFirst (qualVersions edges last)).length := by
    rw [← hkeys, List.length_map]
  refine ⟨?_, ?_, ?_⟩
  · intro hgt
    unfold findOpenReleaseIssues
    rw [hlen]
    simp [hgt]
  · intro h1
    have hl1 : (collectIssues last edges []).length = 1 := by rw [hlen, h1]
    obtain ⟨p, hp⟩ := List.length_eq_one.mp hl1
    obtain ⟨v, node⟩ := p
    have hv : v ∈ qualVersions edges last := by
      apply keepFirst_subset
      rw [← hkeys, hp]
      simp
    refine ⟨{ version := v, issue_id := node.id, issue_number := node.number,
              labels := labels }, ?_, rfl, hv⟩
    unfold findOpenReleaseIssues
    rw [hp]
    simp
  · intro h0
    have hnil : collectIssues last edges [] = [] := by
      have h2 := hkeys
      rw [h0] at h2
      simp [keepFirst] at h2
      exact h2
    unfold findOpenReleaseIssues
    rw [hnil]
    simp

/-- C6 witness: two simultaneously open qualifying issues with distinct
versions make the phase fail and produce nothing. -/
theorem C6_issue_discovery_witness :
    findOpenReleaseIssues [issueB1, issueB2] ⟨1, 0, 0, [], []⟩ none = (false, none) :=
  (C6_issue_discovery [issueB1, issueB2] ⟨1, 0, 0, [], []⟩ none).1 (by decide)

/-! ## C10: the privilege check -/

theorem perEdgeAccept_priv {e : IssueEdge} {last : SemVer} {v : String}
    (h : perEdgeAccept e last = some v) :
    privilegedAssoc e.authorAssociation = true := by
  unfold perEdgeAccept at h
  cases hacc : acceptVersion e.title last with
  | some v' =>
    rw [hacc] at h
    by_cases hp : privilegedAssoc e.authorAssociation = true
    · exact hp
    · simp [hp] at h
  | none => rw [hacc] at h; simp at h

theorem dictInsert_all {P : String × IssueEdge → Bool}
    {acc : List (String × IssueEdge)} {k : String} {v : IssueEdge}
    (hacc : acc.all P = true) (hkv : P (k, v) = true) :
    (dictInsert acc k v).all P = true := by
  induction acc with
  | nil => simp [dictInsert, hkv]
  | cons p rest ih =>
    obtain ⟨k', v'⟩ := p
    rw [List.all_cons, Bool.and_eq_true] at hacc
    by_cases h : k' = k
    · subst h
      simp [dictInsert, hkv, hacc.2]
    · simp [dictInsert, h, hacc.1, ih hacc.2]

theorem collect_all_priv (last : SemVer) (edges : List IssueEdge)
    (acc : List (String × IssueEdge))
    (hacc : acc.all (fun p => privilegedAssoc p.2.authorAssociation) = true) :
    (collectIssues last edges acc).all (fun p => privilegedAssoc p.2.authorAssociation) = true := by
  induction edges generalizing acc with
  | nil => simpa [collectIssues] using hacc
  | cons e rest ih =>
    cases h : perEdgeAccept e last with
    | some v =>
      unfold collectIssues
      rw [h]
      exact ih _ (dictInsert_all hacc (perEdgeAccept_priv h))
    | none =>
      unfold collectIssues
      rw [h]
      exact ih _ hacc

theorem collect_filter_priv (last : SemVer) (edges : List IssueEdge)
    (acc : List (String × IssueEdge)) :
    collectIssues last (edges.filter (fun e => privilegedAssoc e.authorAssociation)) acc
      = collectIssues last edges acc := by
  induction edges generalizing acc with
  | nil => simp
  | cons e rest ih =>
    by_cases hp : privilegedAssoc e.authorAssociation = true
    · rw [List.filter_cons, if_pos hp]
      unfold collectIssues
      cases h : perEdgeAccept e last <;> simp [ih]
    · have hnone : perEdgeAccept e last = none := by
        unfold perEdgeAccept
        cases hacc : acceptVersion e.title last with
        | some v => simp [hp]
        | none => rfl
      rw [List.filter_cons, if_neg hp]
      rw [ih]
      conv_rhs => unfold collectIssues
      rw [hnone]

/-- C10: a matching issue contributes to the release set only when its
author association is one of MEMBER, OWNER, COLLABORATOR — every entry of
the accumulated `release_issues` dict is privileged, and dropping all
non-privileged issues from the walk leaves the phase's outcome
unchanged. -/
theorem C10_privilege_check (edges : List IssueEdge) (last : SemVer)
    (labels : Option (List String)) :
    ((collectIssues last edges []).all
        (fun p => privilegedAssoc p.2.authorAssociation) = true) ∧
    (findOpenReleaseIssues (edges.filter (fun e => privilegedAssoc e.authorAssociation))
        last labels = findOpenReleaseIssues edges last labels) := by
  refine ⟨collect_all_priv last edges [] (by simp), ?_⟩
  unfold findOpenReleaseIssues
  rw [collect_filter_priv]

/-! ## Per-phase characterisation lemmas for the cycle driver -/

theorem gh_effects_kind (w : World) (st : BotSt) :
    ∀ e ∈ (makeNewGithubRelease w st).2.2, ghKind e = true := by
  unfold makeNewGithubRelease
  cases hv : st.new_release.version with
  | none => simp
  | some v =>
    by_cases hge : verGe w.latestGh (coerceS v) = true
    · simp [hge, ghKind]
    · cases hr : w.ghRelease with
      | error u => simp [hge, hr, ghKind]
      | ok b => simp [hge, hr, ghKind]

theorem gh_state (w : World) (st : BotSt) :
    (makeNewGithubRelease w st).2.1.new_release.pr_id = st.new_release.pr_id ∧
    (makeNewGithubRelease w st).2.1.new_release.version = st.new_release.version ∧
    (makeNewGithubRelease w st).2.1.new_release.fedora = st.new_release.fedora ∧
    (makeNewGithubRelease w st).2.1.new_pr = st.new_pr := by
  unfold makeNewGithubRelease
  cases hv : st.new_release.version with
  | none => simp [hv]
  | some v =>
    by_cases hge : verGe w.latestGh (coerceS v) = true
    · simp [hge, hv]
    · cases hr : w.ghRelease with
      | error u => simp [hge, hr, pushComment, hv]
      | ok b => cases b <;> simp [hge, hr, pushComment, hv]

theorem pypi_effects_kind (w : World) (st : BotSt) :
    ∀ e ∈ (makeNewPypiRelease w st).2.2, pypiKind e = true := by
  unfold makeNewPypiRelease
  cases hv : st.new_release.version with
  | none => simp
  | some v =>
    by_cases hge : verGe w.latestPypi (coerceS v) = true
    · simp [hge]
    · by_cases hok : w.pypiOk = true
      · simp [hge, hok, pypiKind]
      · simp [hge, hok, pypiKind]

theorem pypi_state (w : World) (st : BotSt) :
    (makeNewPypiRelease w st).2.1.new_release.pr_id = st.new_release.pr_id ∧
    (makeNewPypiRelease w st).2.1.new_release.version = st.new_release.version ∧
    (makeNewPypiRelease w st).2.1.new_release.fedora = st.new_release.fedora ∧
    (makeNewPypiRelease w st).2.1.new_pr = st.new_pr := by
  unfold makeNewPypiRelease
  cases hv : st.new_release.version with
  | none => simp [hv]
  | some v =>
    by_cases hge : verGe w.latestPypi (coerceS v) = true
    · simp [hge, hv]
    · by_cases hok : w.pypiOk = true
      · simp [hge, hok, pushComment, hv]
      · simp [hge, hok, pushComment, hv]

theorem pypi_fresh (w : World) (st : BotSt)
    (h : (makeNewPypiRelease w st).1 = .ok true) :
    w.pypiOk = true ∧ Effect.pypiRelease ∈ (makeNewPypiRelease w st).2.2 := by
  unfold makeNewPypiRelease at h ⊢
  cases hv : st.new_release.version with
  | none => rw [hv] at h; simp at h
  | some v =>
    rw [hv] at h
    by_cases hge : verGe w.latestPypi (coerceS v) = true
    · simp [hge] at h
    · by_cases hok : w.pypiOk = true
      · simp [hge, hok]
      · simp [hge, hok] at h

theorem fedora_shape (w : World) (st : BotSt) :
    (makeNewFedoraRelease w st).2.2 = [] ∨
    (st.new_release.fedora = true ∧
      (makeNewFedoraRelease w st).2.2 = [Effect.fedoraRelease]) := by
  unfold makeNewFedoraRelease
  by_cases hf : st.new_release.fedora = true
  · cases hr : w.fedoraResult with
    | ok b => right; exact ⟨hf, by simp [hf, hr]⟩
    | error u => right; exact ⟨hf, by simp [hf, hr]⟩
  · left; simp [hf]

theorem fedora_state (w : World) (st : BotSt) :
    (makeNewFedoraRelease w st).2.1.new_release.pr_id = st.new_release.pr_id ∧
    (makeNewFedoraRelease w st).2.1.new_release.version = st.new_release.version ∧
    (makeNewFedoraRelease w st).2.1.new_pr = st.new_pr := by
  unfold makeNewFedoraRelease
  by_cases hf : st.new_release.fedora = true
  · cases hr : w.fedoraResult with
    | ok b => simp [hf, hr, pushComment]
    | error u => simp [hf, hr, pushComment]
  · simp [hf]

theorem mkpr_effects_kind (w : World) (st : BotSt) :
    ∀ e ∈ (makeReleasePullRequest w st).2.2, reqPathKind e = true := by
  unfold makeReleasePullRequest
  cases hpr : st.new_pr with
  | none => simp
  | some pr =>
    by_cases hge : verGe w.latestGh (coerceS pr.version) = true
    · simp [hge]
    · cases hm : w.makePr with
      | ok url => simp [hge, hm, reqPathKind]
      | error u => simp [hge, hm, reqPathKind]

theorem mkpr_state (w : World) (st : BotSt) :
    (makeReleasePullRequest w st).2.1.comment = st.comment ∧
    (makeReleasePullRequest w st).2.1.new_release = st.new_release := by
  unfold makeReleasePullRequest
  cases hpr : st.new_pr with
  | none => simp
  | some pr =>
    by_cases hge : verGe w.latestGh (coerceS pr.version) = true
    · simp [hge]
    · cases hm : w.makePr with
      | ok url => simp [hge, hm]
      | error u => simp [hge, hm]

theorem req_effects_kind (w : World) (st : BotSt) :
    ∀ e ∈ (requestPath w st).2.2, reqPathKind e = true := by
  unfold requestPath
  by_cases ht : st.new_release.trigger_on_issue = true
  · simp only [ht, if_true]
    split
    · next pr heq =>
      intro e he
      rcases List.mem_append.mp he with hL | hR
      · cases hlab : st.new_release.labels with
        | some ls =>
          rw [hlab] at hL
          simp at hL
          subst hL
          rfl
        | none =>
          rw [hlab] at hL
          simp at hL
      · exact mkpr_effects_kind w { st with new_pr := some pr } e hR
    · simp
  · simp [ht]

theorem req_state (w : World) (st : BotSt) :
    (requestPath w st).2.1.comment = st.comment ∧
    (requestPath w st).2.1.new_release = st.new_release := by
  unfold requestPath
  by_cases ht : st.new_release.trigger_on_issue = true
  · simp only [ht, if_true]
    split
    · next pr heq =>
      exact ⟨(mkpr_state w { st with new_pr := some pr }).1,
             (mkpr_state w { st with new_pr := some pr }).2⟩
    · simp
  · simp [ht]

theorem flush_effects_kind (st : BotSt) :
    ∀ e ∈ (flushComments st).1, isAddCommentE e = true := by
  unfold flushComments
  cases hp : st.new_release.pr_id with
  | none => simp
  | some t =>
    cases hc : st.comment with
    | nil => simp
    | cons m ms => simp [isAddCommentE]

theorem flush_state (st : BotSt) :
    (flushComments st).2.new_release = st.new_release ∧
    (flushComments st).2.new_pr = st.new_pr := by
  unfold flushComments
  cases hp : st.new_release.pr_id with
  | none => simp
  | some t =>
    cases hc : st.comment with
    | nil => simp
    | cons m ms => simp

/-! ## Cycle-level lemmas -/

theorem count_zero_of_kind {p : Effect → Bool} {l : List Effect} {a : Effect}
    (hall : ∀ e ∈ l, p e = true) (ha : p a = false) : l.count a = 0 := by
  rw [List.count_eq_zero]
  intro hmem
  rw [hall a hmem] at ha
  cases ha

theorem not_mem_of_kind {p : Effect → Bool} {l : List Effect} {a : Effect}
    (hall : ∀ e ∈ l, p e = true) (ha : p a = false) : a ∉ l := by
  intro hmem
  rw [hall a hmem] at ha
  cases ha

theorem loadConf_fields {w : World} {st st1 : BotSt}
    (h : loadReleaseConf w st = .ok st1) :
    st1.new_release.fedora = w.conf.fedora ∧
    st1.new_release.trigger_on_issue = w.conf.trigger_on_issue ∧
    st1.new_release.labels = w.conf.labels ∧
    st1.new_release.version = st.new_release.version ∧
    st1.new_release.pr_id = st.new_release.pr_id ∧
    st1.comment = st.comment ∧
    st1.new_pr = st.new_pr := by
  unfold loadReleaseConf at h
  by_cases hc : w.confErr = true
  · simp [hc] at h
  · simp [hc] at h
    rw [← h]
    exact ⟨rfl, rfl, rfl, rfl, rfl, rfl, rfl⟩

theorem findNewest_fields {w : World} {st : BotSt} {found : Bool} {st2 : BotSt}
    (h : findNewestReleasePR w st = .ok (found, st2)) :
    (found = false → st2 = st) ∧
    (found = true → ∃ nr : NewRelInfo, scanPRs w.latestGh w.prEdges = .ok (some nr) ∧
        st2 = { st with new_release := applyNewRel st.new_release nr }) := by
  unfold findNewestReleasePR at h
  cases hs : scanPRs w.latestGh w.prEdges with
  | error e => rw [hs] at h; cases h
  | ok o =>
    rw [hs] at h
    cases o with
    | none =>
      injection h with h2
      rw [Prod.mk.injEq] at h2
      obtain ⟨hfound, hst⟩ := h2
      refine ⟨fun _ => hst.symm, fun hf => ?_⟩
      rw [← hfound] at hf
      cases hf
    | some nr =>
      injection h with h2
      rw [Prod.mk.injEq] at h2
      obtain ⟨hfound, hst⟩ := h2
      refine ⟨fun hf => ?_, fun _ => ⟨nr, rfl, hst.symm⟩⟩
      rw [← hfound] at hf
      cases hf

/-- Fedora/PyPI accounting through the three publication steps. -/
theorem publishSeq_fedora (w : World) (st : BotSt) :
    (publishSeq w st).2.2.count Effect.fedoraRelease
        ≤ (publishSeq w st).2.2.count Effect.pypiRelease ∧
    (Effect.fedoraRelease ∈ (publishSeq w st).2.2 →
        st.new_release.fedora = true ∧ w.pypiOk = true ∧
        Effect.pypiRelease ∈ (publishSeq w st).2.2) := by
  unfold publishSeq
  split
  · next e st1 es1 heq =>
    have hk := gh_effects_kind w st
    rw [heq] at hk
    refine ⟨?_, ?_⟩
    · rw [count_zero_of_kind hk (by rfl), count_zero_of_kind hk (by rfl)]
    · intro hmem
      exact absurd hmem (not_mem_of_kind hk (by rfl))
  · next st1 es1 heq =>
    have hkg := gh_effects_kind w st
    rw [heq] at hkg
    split
    · next e st2 es2 heq2 =>
      have hkp := pypi_effects_kind w st1
      rw [heq2] at hkp
      refine ⟨?_, ?_⟩
      · simp only [List.count_append]
        rw [count_zero_of_kind hkg (by rfl), count_zero_of_kind hkg (by rfl),
            count_zero_of_kind hkp (by rfl)]
        simp
      · intro hmem
        rcases List.mem_append.mp hmem with h1 | h2
        · exact absurd h1 (not_mem_of_kind hkg (by rfl))
        · exact absurd h2 (not_mem_of_kind hkp (by rfl))
    · next st2 es2 heq2 =>
      have hkp := pypi_effects_kind w st1
      rw [heq2] at hkp
      have hfr : (makeNewPypiRelease w st1).1 = .ok true := by rw [heq2]
      obtain ⟨hok, hmemp⟩ := pypi_fresh w st1 hfr
      rw [heq2] at hmemp
      have hfedst : st2.new_release.fedora = st.new_release.fedora := by
        have h1 := (pypi_state w st1).2.2.1
        have h2 := (gh_state w st).2.2.1
        rw [heq2] at h1
        rw [heq] at h2
        rw [h1, h2]
      rcases fedora_shape w st2 with hnil | ⟨hf, hcons⟩
      · refine ⟨?_, ?_⟩
        · simp only [List.count_append, hnil]
          rw [count_zero_of_kind hkg (by rfl), count_zero_of_kind hkg (by rfl),
              count_zero_of_kind hkp (by rfl)]
          simp
        · intro hmem
          rcases List.mem_append.mp hmem with h1 | h2
          · rcases List.mem_append.mp h1 with h3 | h4
            · exact absurd h3 (not_mem_of_kind hkg (by rfl))
            · exact absurd h4 (not_mem_of_kind hkp (by rfl))
          · rw [hnil] at h2; cases h2
      · refine ⟨?_, ?_⟩
        · simp only [List.count_append, hcons]
          rw [count_zero_of_kind hkg (by rfl), count_zero_of_kind hkg (by rfl),
              count_zero_of_kind hkp (by rfl)]
          have hpos : 0 < es2.count Effect.pypiRelease := List.count_pos_iff.mpr hmemp
          have hc1 : [Effect.fedoraRelease].count Effect.fedoraRelease = 1 := rfl
          have hc2 : [Effect.fedoraRelease].count Effect.pypiRelease = 0 := rfl
          rw [hc1, hc2]
          omega
        · intro _
          refine ⟨by rw [← hfedst]; exact hf, hok, ?_⟩
          exact List.mem_append.mpr (Or.inl (List.mem_append.mpr (Or.inr hmemp)))
    · next st2 es2 heq2 =>
      have hkp := pypi_effects_kind w st1
      rw [heq2] at hkp
      refine ⟨?_, ?_⟩
      · simp only [List.count_append]
        rw [count_zero_of_kind hkg (by rfl), count_zero_of_kind hkg (by rfl),
            count_zero_of_kind hkp (by rfl)]
        simp
      · intro hmem
        rcases List.mem_append.mp hmem with h1 | h2
        · exact absurd h1 (not_mem_of_kind hkg (by rfl))
        · exact absurd h2 (not_mem_of_kind hkp (by rfl))

theorem count_cons_ne (a b : Effect) (l : List Effect) (h : (b == a) = false) :
    (b :: l).count a = l.count a := by
  rw [List.count_cons, h]
  simp

theorem cycleBody_fedora (w : World) (st : BotSt) :
    (cycleBody w st).2.2.count Effect.fedoraRelease
        ≤ (cycleBody w st).2.2.count Effect.pypiRelease ∧
    (Effect.fedoraRelease ∈ (cycleBody w st).2.2 →
        w.conf.fedora = true ∧ w.pypiOk = true ∧
        Effect.pypiRelease ∈ (cycleBody w st).2.2) := by
  unfold cycleBody
  split
  · next e heq => simp
  · next st1 heqL =>
    split
    · next e heq => simp
    · next found st2 heqF =>
      have hfed2 : st2.new_release.fedora = w.conf.fedora := by
        obtain ⟨hff, hft⟩ := findNewest_fields heqF
        by_cases hfnd : found = true
        · obtain ⟨nr, _, hst2⟩ := hft hfnd
          rw [hst2]
          exact (loadConf_fields heqL).1
        · rw [hff (by simpa using hfnd)]
          exact (loadConf_fields heqL).1
      split
      · next e st3 es1 heqP =>
        by_cases hfnd : found = true
        · rw [hfnd, if_pos rfl] at heqP
          have hps := publishSeq_fedora w st2
          rw [heqP] at hps
          refine ⟨hps.1, fun hmem => ?_⟩
          obtain ⟨hf2, hok, hmp⟩ := hps.2 hmem
          exact ⟨by rw [← hfed2]; exact hf2, hok, hmp⟩
        · rw [if_neg hfnd] at heqP
          cases heqP
      · next st3 es1 heqP =>
        have hreq := req_effects_kind w st3
        have hes1 :
            es1.count Effect.fedoraRelease ≤ es1.count Effect.pypiRelease ∧
            (Effect.fedoraRelease ∈ es1 →
              w.conf.fedora = true ∧ w.pypiOk = true ∧ Effect.pypiRelease ∈ es1) := by
          by_cases hfnd : found = true
          · rw [hfnd, if_pos rfl] at heqP
            have hps := publishSeq_fedora w st2
            rw [heqP] at hps
            refine ⟨hps.1, fun hmem => ?_⟩
            obtain ⟨hf2, hok, hmp⟩ := hps.2 hmem
            exact ⟨by rw [← hfed2]; exact hf2, hok, hmp⟩
          · rw [if_neg hfnd] at heqP
            injection heqP with h1 h2
            injection h2 with h2a h2b
            rw [← h2b]
            exact ⟨Nat.le_refl 0, fun hmem => by cases hmem⟩
        refine ⟨?_, ?_⟩
        · simp only [List.count_append]
          rw [count_zero_of_kind hreq (by rfl), count_zero_of_kind hreq (by rfl)]
          omega
        · intro hmem
          rcases List.mem_append.mp hmem with h1 | h2
          · obtain ⟨ha, hb, hc⟩ := hes1.2 h1
            exact ⟨ha, hb, List.mem_append.mpr (Or.inl hc)⟩
          · exact absurd h2 (not_mem_of_kind hreq (by rfl))

/-- C8: the Fedora downstream trigger fires at most once per fresh
package-index publish (its effect count never exceeds the PyPI publish
count in a cycle), and it is attempted only when the configuration's
Fedora flag is set and the PyPI step freshly succeeded in the same cycle
(never when PyPI was skipped as already done). -/
theorem C8_fedora_gating (w : World) (st : BotSt) :
    (runCycle w st).2.2.count Effect.fedoraRelease
        ≤ (runCycle w st).2.2.count Effect.pypiRelease ∧
    (Effect.fedoraRelease ∈ (runCycle w st).2.2 →
        w.conf.fedora = true ∧ w.pypiOk = true ∧
        Effect.pypiRelease ∈ (runCycle w st).2.2) := by
  unfold runCycle
  by_cases hp : w.pullErr = true
  · rw [if_pos hp]
    refine ⟨Nat.le_refl _, fun hmem => ?_⟩
    simp at hmem
  · rw [if_neg hp]
    split
    · next m st1 es heq =>
      have hcb := cycleBody_fedora w st
      rw [heq] at hcb
      dsimp only at hcb ⊢
      refine ⟨?_, ?_⟩
      · rw [count_cons_ne Effect.fedoraRelease Effect.gitPull es (by rfl),
            count_cons_ne Effect.pypiRelease Effect.gitPull es (by rfl)]
        exact hcb.1
      · intro hmem
        rcases List.mem_cons.mp hmem with h1 | h2
        · cases h1
        · obtain ⟨ha, hb, hc⟩ := hcb.2 h2
          exact ⟨ha, hb, List.mem_cons_of_mem _ hc⟩
    · next r st1 es hcond hne =>
      have hcb := cycleBody_fedora w st
      rw [hne] at hcb
      have hkf := flush_effects_kind st1
      dsimp only at hcb ⊢
      refine ⟨?_, ?_⟩
      · simp only [List.count_append]
        rw [count_cons_ne Effect.fedoraRelease Effect.gitPull es (by rfl),
            count_cons_ne Effect.pypiRelease Effect.gitPull es (by rfl),
            count_zero_of_kind hkf (by rfl), count_zero_of_kind hkf (by rfl)]
        omega
      · intro hmem
        rcases List.mem_append.mp hmem with h1 | h2
        · rcases List.mem_cons.mp h1 with h3 | h4
          · cases h3
          · obtain ⟨ha, hb, hc⟩ := hcb.2 h4
            exact ⟨ha, hb, List.mem_append.mpr (Or.inl (List.mem_cons_of_mem _ hc))⟩
        · exact absurd h2 (not_mem_of_kind hkf (by rfl))

/-- C8 witness: in the pre-publication world the cycle publishes to PyPI
and the gating facts are concrete. -/
theorem C8_fedora_gating_witness :
    worldPre.conf.fedora = true ∧ worldPre.pypiOk = true ∧
    Effect.pypiRelease ∈ (runCycle worldPre initialBotSt).2.2 :=
  (C8_fedora_gating worldPre initialBotSt).2 (by decide)

/-- C2 (counterexample): the claim includes the sync phase, but
`git.pull()` runs *outside* the `try` of `run`; a typed recoverable error
raised there escapes the loop and terminates the process. -/
theorem C2_counterexample :
    (runCycle worldPull initialBotSt).1 = .error (.release "Failed to pull") ∧
    (runProcess 1 worldPull initialBotSt).1 = some (.release "Failed to pull") :=
  ⟨rfl, rfl⟩

/-- C2 (amended): when `git.pull` succeeds, every typed release error
raised inside the cycle body (config load, publish path, request path) is
caught at the cycle boundary and the loop proceeds to the flush/sleep:
the cycle never ends with a typed release error. -/
theorem C2_recoverable_errors (w : World) (st : BotSt) (hp : w.pullErr = false) :
    ∀ m, (runCycle w st).1 ≠ .error (.release m) := by
  intro m
  unfold runCycle
  rw [if_neg (by simp [hp])]
  split
  · next mm st1 es heq =>
    dsimp only
    intro hc
    injection hc with hc2
    cases hc2
  · next r st1 es hcond hne =>
    dsimp only
    intro hc
    cases hc

/-- C2 witness: the catch behaviour at a concrete pull-succeeding world. -/
theorem C2_recoverable_errors_witness :
    (runCycle worldRich initialBotSt).1 ≠ .error (.release "boom") :=
  C2_recoverable_errors worldRich initialBotSt rfl "boom"

/-- C1 (counterexample): no reset happens at the top of a cycle: after a
successful cycle the loop continues (`ok`) and the next cycle starts with
non-empty in-flight state (`new_release` still holds the release data). -/
theorem C1_counterexample :
    (runCycle worldRich initialBotSt).1 = .ok () ∧
    (runCycle worldRich initialBotSt).2.1 ≠ initialBotSt ∧
    (runCycle worldRich initialBotSt).2.1.new_release.version = some "2.0.0" := by
  refine ⟨rfl, by decide, rfl⟩

/-- C1 (amended): the full reset happens in `cleanup`, which the
`finally` of `run` executes on process shutdown: `cleanup` always yields
the initial empty state, and every terminating run of the process ends
with the initial empty state. -/
theorem C1_shutdown_reset :
    (∀ st, (cleanup st).1 = initialBotSt) ∧
    (∀ (n : Nat) (w : World) (st : BotSt),
        (runProcess n w st).1.isSome = true → (runProcess n w st).2.1 = initialBotSt) := by
  refine ⟨fun st => rfl, ?_⟩
  intro n
  induction n with
  | zero =>
    intro w st h
    simp [runProcess] at h
  | succ n ih =>
    intro w st h
    unfold runProcess at h ⊢
    rcases hr : runCycle w st with ⟨r, st1, es⟩
    rw [hr] at h
    cases r with
    | error e => rfl
    | ok u => exact ih w st1 h

/-- C1 witness: a run that terminates (failing pull) ends reset. -/
theorem C1_shutdown_reset_witness :
    (runProcess 1 worldPull initialBotSt).2.1 = initialBotSt :=
  C1_shutdown_reset.2 1 worldPull initialBotSt (by decide)

/-! ## Lemmas for the re-run (idempotence) analysis -/

theorem gh_skip {w : World} {st : BotSt} {v : String}
    (hv : st.new_release.version = some v)
    (hge : verGe w.latestGh (coerceS v) = true) :
    makeNewGithubRelease w st = (.ok (), st, [Effect.updateChangelog v]) := by
  unfold makeNewGithubRelease
  rw [hv]
  dsimp only
  rw [if_pos hge]

theorem pypi_skip {w : World} {st : BotSt} {v : String}
    (hv : st.new_release.version = some v)
    (hge : verGe w.latestPypi (coerceS v) = true) :
    makeNewPypiRelease w st = (.ok false, st, []) := by
  unfold makeNewPypiRelease
  rw [hv]
  dsimp only
  rw [if_pos hge]

theorem publishSeq_skip {w : World} {st : BotSt} {v : String}
    (hv : st.new_release.version = some v)
    (hgh : verGe w.latestGh (coerceS v) = true)
    (hpypi : verGe w.latestPypi (coerceS v) = true) :
    publishSeq w st = (.ok (), st, [Effect.updateChangelog v]) := by
  unfold publishSeq
  simp only [gh_skip hv hgh]
  simp only [pypi_skip hv hpypi]
  simp

theorem reqKind_not_pub (e : Effect) (h : reqPathKind e = true) :
    isPublicationMutation e = false := by
  cases e <;> first | rfl | exact Bool.noConfusion h

theorem addKind_not_pub (e : Effect) (h : isAddCommentE e = true) :
    isPublicationMutation e = false := by
  cases e <;> first | rfl | exact Bool.noConfusion h

theorem filter_pub_nil {l : List Effect} {p : Effect → Bool}
    (hall : ∀ e ∈ l, p e = true)
    (himp : ∀ e, p e = true → isPublicationMutation e = false) :
    l.filter isPublicationMutation = [] := by
  rw [List.filter_eq_nil_iff]
  intro e he
  rw [himp e (hall e he)]
  simp

/-- The cycle body of a re-run after full publication: its effect trace
restricted to publication mutations is exactly the changelog update. -/
theorem cycleBody_rerun_filter (w : World) (st : BotSt) (nr : NewRelInfo)
    (hconf : w.confErr = false)
    (hscan : scanPRs w.latestGh w.prEdges = .ok (some nr))
    (hgh : verGe w.latestGh (coerceS nr.version) = true)
    (hpypi : verGe w.latestPypi (coerceS nr.version) = true) :
    (cycleBody w st).2.2.filter isPublicationMutation
      = [Effect.updateChangelog nr.version] := by
  unfold cycleBody
  split
  · next e heqL =>
    unfold loadReleaseConf at heqL
    rw [if_neg (by simp [hconf])] at heqL
    cases heqL
  · next st1 heqL =>
    have hfind : findNewestReleasePR w st1
        = .ok (true, { st1 with new_release := applyNewRel st1.new_release nr }) := by
      unfold findNewestReleasePR
      rw [hscan]
    split
    · next e heqF =>
      rw [hfind] at heqF
      cases heqF
    · next found st2 heqF =>
      rw [hfind] at heqF
      injection heqF with h2
      rw [Prod.mk.injEq] at h2
      obtain ⟨hfound, hst2⟩ := h2
      have hv : st2.new_release.version = some nr.version := by
        rw [← hst2]
        rfl
      have hpub : publishSeq w st2 = (.ok (), st2, [Effect.updateChangelog nr.version]) :=
        publishSeq_skip hv hgh hpypi
      split
      · next e st3 es1 heqP =>
        rw [← hfound, if_pos rfl, hpub] at heqP
        cases heqP
      · next st3 es1 heqP =>
        rw [← hfound, if_pos rfl, hpub] at heqP
        injection heqP with h3 h4
        rw [Prod.mk.injEq] at h4
        obtain ⟨hst3, hes1⟩ := h4
        dsimp only
        rw [List.filter_append, ← hes1]
        rw [filter_pub_nil (req_effects_kind w st3) reqKind_not_pub]
        simp [isPublicationMutation]

/-- C4 (amended): re-running a full cycle immediately after a successful
full publication performs no code-hosting release, no package-index
publish and no downstream trigger (all "already done"), but it is not
free of external mutations: the changelog update is attempted
unconditionally, and it is exactly the one publication-step mutation the
re-run performs. -/
theorem C4_rerun_only_changelog (w : World) (st : BotSt) (nr : NewRelInfo)
    (hpull : w.pullErr = false) (hconf : w.confErr = false)
    (hscan : scanPRs w.latestGh w.prEdges = .ok (some nr))
    (hgh : verGe w.latestGh (coerceS nr.version) = true)
    (hpypi : verGe w.latestPypi (coerceS nr.version) = true) :
    (runCycle w st).2.2.filter isPublicationMutation
      = [Effect.updateChangelog nr.version] := by
  have hcb := cycleBody_rerun_filter w st nr hconf hscan hgh hpypi
  unfold runCycle
  rw [if_neg (by simp [hpull])]
  split
  · next m st1 es heq =>
    rw [heq] at hcb
    dsimp only at hcb ⊢
    rw [List.filter_cons]
    rw [show isPublicationMutation Effect.gitPull = false from rfl]
    simpa using hcb
  · next r st1 es hcond hne =>
    rw [hne] at hcb
    dsimp only at hcb ⊢
    rw [List.filter_append, List.filter_cons]
    rw [show isPublicationMutation Effect.gitPull = false from rfl]
    rw [filter_pub_nil (flush_effects_kind st1) addKind_not_pub]
    simpa using hcb

/-- C4 (counterexample): the first cycle in `worldPre` completes a full
publication of 1.1.0 (github release, PyPI publish, Fedora trigger);
re-running a cycle against the post-publication world still performs an
external mutation, the unconditional changelog update — not zero side
effects as claimed. -/
theorem C4_counterexample :
    Effect.githubNewRelease "1.1.0" ∈ (runCycle worldPre initialBotSt).2.2 ∧
    Effect.pypiRelease ∈ (runCycle worldPre initialBotSt).2.2 ∧
    Effect.fedoraRelease ∈ (runCycle worldPre initialBotSt).2.2 ∧
    Effect.updateChangelog "1.1.0" ∈
      (runCycle worldPost (runCycle worldPre initialBotSt).2.1).2.2 := by
  decide

/-- C4 witness: the amended statement at the concrete post-publication
world, starting from the state the publishing cycle left behind. -/
theorem C4_rerun_only_changelog_witness :
    (runCycle worldPost (runCycle worldPre initialBotSt).2.1).2.2.filter isPublicationMutation
      = [Effect.updateChangelog "1.1.0"] :=
  C4_rerun_only_changelog worldPost (runCycle worldPre initialBotSt).2.1 nrB
    rfl rfl (by rfl) (by decide) (by decide)

/-! ## Typed-vs-untyped error sources inside the cycle body -/

theorem gh_no_typeErr (w : World) (st : BotSt) {v : String}
    (hv : st.new_release.version = some v) :
    ∀ m, (makeNewGithubRelease w st).1 ≠ .error (.typeErr m) := by
  intro m
  unfold makeNewGithubRelease
  rw [hv]
  dsimp only
  by_cases hge : verGe w.latestGh (coerceS v) = true
  · rw [if_pos hge]
    intro hc
    cases hc
  · rw [if_neg hge]
    cases hr : w.ghRelease with
    | error u =>
      dsimp only
      intro hc
      injection hc with h2
      cases h2
    | ok b =>
      dsimp only
      intro hc
      cases hc

theorem pypi_no_typeErr (w : World) (st : BotSt) {v : String}
    (hv : st.new_release.version = some v) :
    ∀ m, (makeNewPypiRelease w st).1 ≠ .error (.typeErr m) := by
  intro m
  unfold makeNewPypiRelease
  rw [hv]
  dsimp only
  by_cases hge : verGe w.latestPypi (coerceS v) = true
  · rw [if_pos hge]
    intro hc
    cases hc
  · rw [if_neg hge]
    by_cases hok : w.pypiOk = true
    · rw [if_pos hok]
      intro hc
      cases hc
    · rw [if_neg hok]
      intro hc
      injection hc with h2
      cases h2

theorem fedora_no_typeErr (w : World) (st : BotSt) :
    ∀ m, (makeNewFedoraRelease w st).1 ≠ .error (.typeErr m) := by
  intro m
  unfold makeNewFedoraRelease
  by_cases hf : st.new_release.fedora = true
  · rw [if_pos hf]
    cases hr : w.fedoraResult with
    | ok b =>
      dsimp only
      intro hc
      cases hc
    | error u =>
      dsimp only
      intro hc
      injection hc with h2
      cases h2
  · rw [if_neg hf]
    intro hc
    cases hc

theorem publishSeq_no_typeErr (w : World) (st : BotSt) {v : String}
    (hv : st.new_release.version = some v) :
    ∀ m, (publishSeq w st).1 ≠ .error (.typeErr m) := by
  intro m
  unfold publishSeq
  split
  · next e st1 es1 heq =>
    dsimp only
    intro hc
    injection hc with h2
    have hne := gh_no_typeErr w st hv m
    rw [heq] at hne
    exact hne (by rw [h2])
  · next st1 es1 heq =>
    have hv1 : st1.new_release.version = some v := by
      have := (gh_state w st).2.1
      rw [heq] at this
      dsimp only at this
      rw [this, hv]
    split
    · next e st2 es2 heq2 =>
      dsimp only
      intro hc
      injection hc with h2
      have hne := pypi_no_typeErr w st1 hv1 m
      rw [heq2] at hne
      exact hne (by rw [h2])
    · next st2 es2 heq2 =>
      exact fedora_no_typeErr w st2 m
    · next st2 es2 heq2 =>
      dsimp only
      intro hc
      cases hc

theorem mkpr_no_typeErr (w : World) (st : BotSt) (pr : PendingPR)
    (hpr : st.new_pr = some pr) :
    ∀ m, (makeReleasePullRequest w st).1 ≠ .error (.typeErr m) := by
  intro m
  unfold makeReleasePullRequest
  rw [hpr]
  dsimp only
  by_cases hge : verGe w.latestGh (coerceS pr.version) = true
  · rw [if_pos hge]
    intro hc
    cases hc
  · rw [if_neg hge]
    cases hm : w.makePr with
    | ok url =>
      dsimp only
      intro hc
      cases hc
    | error u =>
      dsimp only
      intro hc
      injection hc with h2
      cases h2

theorem req_no_typeErr (w : World) (st : BotSt) :
    ∀ m, (requestPath w st).1 ≠ .error (.typeErr m) := by
  intro m
  unfold requestPath
  by_cases ht : st.new_release.trigger_on_issue = true
  · rw [if_pos ht]
    split
    · next pr heq =>
      dsimp only
      intro hc
      cases hres : (makeReleasePullRequest w { st with new_pr := some pr }).1 with
      | ok b =>
        rw [hres] at hc
        cases hc
      | error e =>
        rw [hres] at hc
        injection hc with h2
        exact mkpr_no_typeErr w { st with new_pr := some pr } pr rfl m (by rw [hres, h2])
    · dsimp only
      intro hc
      cases hc
  · rw [if_neg ht]
    intro hc
    cases hc

theorem publishSeq_pr_id (w : World) (st : BotSt) :
    (publishSeq w st).2.1.new_release.pr_id = st.new_release.pr_id := by
  unfold publishSeq
  split
  · next e st1 es1 heq =>
    have h := (gh_state w st).1
    rw [heq] at h
    exact h
  · next st1 es1 heq =>
    have hg := (gh_state w st).1
    rw [heq] at hg
    dsimp only at hg
    split
    · next e st2 es2 heq2 =>
      have hp := (pypi_state w st1).1
      rw [heq2] at hp
      dsimp only at hp ⊢
      rw [hp, hg]
    · next st2 es2 heq2 =>
      have hp := (pypi_state w st1).1
      rw [heq2] at hp
      dsimp only at hp ⊢
      rw [(fedora_state w st2).1, hp, hg]
    · next st2 es2 heq2 =>
      have hp := (pypi_state w st1).1
      rw [heq2] at hp
      dsimp only at hp ⊢
      rw [hp, hg]

theorem cycleBody_comment_inv (w : World) (st : BotSt) (hc : st.comment = []) :
    (cycleBody w st).2.1.comment = [] ∨
    ((cycleBody w st).2.1.new_release.pr_id.isSome = true ∧
      ∀ m, (cycleBody w st).1 ≠ .error (.typeErr m)) := by
  unfold cycleBody
  split
  · next e heqL =>
    left
    exact hc
  · next st1 heqL =>
    obtain ⟨hf1, ht1, hl1, hv1, hp1, hc1, hn1⟩ := loadConf_fields heqL
    split
    · next e heqF =>
      left
      rw [hc1]
      exact hc
    · next found st2 heqF =>
      obtain ⟨hff, hft⟩ := findNewest_fields heqF
      by_cases hfnd : found = true
      · obtain ⟨nr, hsc, hst2⟩ := hft hfnd
        have hpr2 : st2.new_release.pr_id = some nr.pr_id := by rw [hst2]; rfl
        have hv2 : st2.new_release.version = some nr.version := by rw [hst2]; rfl
        split
        · next e st3 es1 heqP =>
          rw [hfnd, if_pos rfl] at heqP
          right
          constructor
          · have hps := publishSeq_pr_id w st2
            rw [heqP] at hps
            dsimp only at hps ⊢
            rw [hps, hpr2]
            rfl
          · intro m hcon
            dsimp only at hcon
            have hne := publishSeq_no_typeErr w st2 hv2 m
            rw [heqP] at hne
            exact hne hcon
        · next st3 es1 heqP =>
          rw [hfnd, if_pos rfl] at heqP
          right
          have hps := publishSeq_pr_id w st2
          rw [heqP] at hps
          dsimp only at hps
          constructor
          · dsimp only
            rw [(req_state w st3).2, hps, hpr2]
            rfl
          · intro m hcon
            dsimp only at hcon
            exact req_no_typeErr w st3 m hcon
      · have hfF : found = false := by simpa using hfnd
        have hst2 := hff hfF
        split
        · next e st3 es1 heqP =>
          rw [hfF, if_neg (by simp)] at heqP
          cases heqP
        · next st3 es1 heqP =>
          rw [hfF, if_neg (by simp)] at heqP
          injection heqP with h3 h4
          rw [Prod.mk.injEq] at h4
          obtain ⟨hst3, hes1⟩ := h4
          left
          dsimp only
          rw [(req_state w st3).1, ← hst3, hst2, hc1]
          exact hc

theorem flush_comment_empty (st : BotSt)
    (h : st.comment = [] ∨ st.new_release.pr_id.isSome = true) :
    (flushComments st).2.comment = [] := by
  unfold flushComments
  rcases h with h1 | h2
  · rw [h1]
    cases hp : st.new_release.pr_id <;> exact h1
  · obtain ⟨t, hp⟩ := Option.isSome_iff_exists.mp h2
    rw [hp]
    cases hcm : st.comment with
    | nil => exact hcm
    | cons m ms => rfl

theorem ghKind_not_add (e : Effect) (h : ghKind e = true) : isAddCommentE e = false := by
  cases e <;> first | rfl | exact Bool.noConfusion h

theorem pypiKind_not_add (e : Effect) (h : pypiKind e = true) : isAddCommentE e = false := by
  cases e <;> first | rfl | exact Bool.noConfusion h

theorem publishSeq_no_add (w : World) (st : BotSt) :
    ∀ e ∈ (publishSeq w st).2.2, isAddCommentE e = false := by
  unfold publishSeq
  split
  · next e st1 es1 heq =>
    intro x hx
    have hk := gh_effects_kind w st
    rw [heq] at hk
    dsimp only at hk
    exact ghKind_not_add x (hk x hx)
  · next st1 es1 heq =>
    have hkg := gh_effects_kind w st
    rw [heq] at hkg
    dsimp only at hkg
    split
    · next e st2 es2 heq2 =>
      have hkp := pypi_effects_kind w st1
      rw [heq2] at hkp
      dsimp only at hkp
      intro x hx
      rcases List.mem_append.mp hx with h1 | h2
      · exact ghKind_not_add x (hkg x h1)
      · exact pypiKind_not_add x (hkp x h2)
    · next st2 es2 heq2 =>
      have hkp := pypi_effects_kind w st1
      rw [heq2] at hkp
      dsimp only at hkp
      intro x hx
      dsimp only at hx
      rcases List.mem_append.mp hx with h1 | h2
      · rcases List.mem_append.mp h1 with h3 | h4
        · exact ghKind_not_add x (hkg x h3)
        · exact pypiKind_not_add x (hkp x h4)
      · rcases fedora_shape w st2 with hnil | ⟨hf, hcons⟩
        · rw [hnil] at h2
          cases h2
        · rw [hcons] at h2
          simp at h2
          subst h2
          rfl
    · next st2 es2 heq2 =>
      have hkp := pypi_effects_kind w st1
      rw [heq2] at hkp
      dsimp only at hkp
      intro x hx
      rcases List.mem_append.mp hx with h1 | h2
      · exact ghKind_not_add x (hkg x h1)
      · exact pypiKind_not_add x (hkp x h2)

theorem reqKind_add_singleton {t : Option String} {msgs : List String}
    (h : reqPathKind (Effect.addComment t msgs) = true) : ∃ m, msgs = [m] := by
  cases msgs with
  | nil => cases h
  | cons m rest =>
    cases rest with
    | nil => exact ⟨m, rfl⟩
    | cons b t2 => cases h

theorem cycleBody_add_singleton (w : World) (st : BotSt) :
    ∀ t msgs, Effect.addComment t msgs ∈ (cycleBody w st).2.2 → ∃ m, msgs = [m] := by
  intro t msgs hmem
  unfold cycleBody at hmem
  split at hmem
  · cases hmem
  · next st1 heqL =>
    split at hmem
    · cases hmem
    · next found st2 heqF =>
      split at hmem
      · next e st3 es1 heqP =>
        by_cases hfnd : found = true
        · rw [hfnd, if_pos rfl] at heqP
          have hna := publishSeq_no_add w st2
          rw [heqP] at hna
          have := hna _ hmem
          cases this
        · rw [show found = false from by simpa using hfnd, if_neg (by simp)] at heqP
          cases heqP
      · next st3 es1 heqP =>
        dsimp only at hmem
        rcases List.mem_append.mp hmem with h1 | h2
        · by_cases hfnd : found = true
          · rw [hfnd, if_pos rfl] at heqP
            have hna := publishSeq_no_add w st2
            rw [heqP] at hna
            have := hna _ h1
            cases this
          · rw [show found = false from by simpa using hfnd, if_neg (by simp)] at heqP
            injection heqP with h3 h4
            rw [Prod.mk.injEq] at h4
            rw [← h4.2] at h1
            cases h1
        · exact reqKind_add_singleton (req_effects_kind w st3 _ h2)

/-- C3 (amended): the accumulated notification log itself is never
flushed mid-cycle: during the body the only comment posts are the
PR-creation handler's single-message status comments (the accumulated
log is saved and restored around them); the batched log is posted at
most once, by the end-of-cycle flush, to the release PR, carrying the
whole accumulated log; and the log is empty at the start of the next
cycle. -/
theorem C3_notification_log (w : World) (st : BotSt) (hc : st.comment = []) :
    (runCycle w st).2.1.comment = [] ∧
    (∀ t msgs, Effect.addComment t msgs ∈ (cycleBody w st).2.2 → ∃ m, msgs = [m]) ∧
    (∀ st2 : BotSt, (flushComments st2).1 = [] ∨
        (flushComments st2).1 = [Effect.addComment st2.new_release.pr_id st2.comment]) := by
  refine ⟨?_, cycleBody_add_singleton w st, ?_⟩
  · unfold runCycle
    by_cases hp : w.pullErr = true
    · rw [if_pos hp]
      exact hc
    · rw [if_neg hp]
      split
      · next m st1 es heq =>
        have hinv := cycleBody_comment_inv w st hc
        rw [heq] at hinv
        dsimp only at hinv ⊢
        rcases hinv with h1 | ⟨h2, h3⟩
        · exact h1
        · exact absurd rfl (h3 m)
      · next r st1 es hcond hne =>
        have hinv := cycleBody_comment_inv w st hc
        rw [hne] at hinv
        dsimp only at hinv ⊢
        apply flush_comment_empty
        rcases hinv with h1 | ⟨h2, _⟩
        · exact Or.inl h1
        · exact Or.inr h2
  · intro st2
    unfold flushComments
    cases hp : st2.new_release.pr_id with
    | none =>
      cases hcm : st2.comment <;> dsimp only <;> left <;> rfl
    | some t =>
      cases hcm : st2.comment with
      | nil =>
        dsimp only
        left
        rfl
      | cons m ms =>
        dsimp only
        right
        rfl

/-- C3 (counterexample): a cycle that both publishes a release and
creates a release PR posts *two* comments to *two* destinations: the
PR-creation handler's mid-cycle status comment on the source issue and
the end-of-cycle batched flush on the release PR. -/
theorem C3_counterexample :
    ((runCycle worldRich initialBotSt).2.2.countP (fun e => isAddCommentE e)) = 2 ∧
    Effect.addComment (some "I1")
        [prRequestMsg true "3.0.0" (some "https://example.org/pr/1")]
      ∈ (runCycle worldRich initialBotSt).2.2 ∧
    Effect.addComment (some "PR1") [ghReleaseMsg true "2.0.0"]
      ∈ (runCycle worldRich initialBotSt).2.2 := by
  decide

/-- C3 witness: the amended log discipline at a concrete cycle. -/
theorem C3_notification_log_witness :
    (runCycle worldRich initialBotSt).2.1.comment = [] :=
  (C3_notification_log worldRich initialBotSt rfl).1
